import Mathlib

/-!
# A verification development for the `behaviour` tree compiler

This file gives a shallow embedding, in Lean 4, of the core of the
`behaviour` crate: identifier parsing (`src/identifier.rs`), the
append-only registry (`src/registry.rs`), the behaviour context
(`src/context.rs`), and the behaviour-tree compiler
(`src/behavior/tree.rs`).  Rust strings are modelled as `List Char`,
machine integers (`u32`, `usize`) as `Nat` with explicit `% 2^32`
truncation exactly where the Rust code casts, mutation as explicit
state passing, and fallible operations as `Except`.  The compiler's
iterative work list is modelled with an explicit fuel argument; one
unit of fuel is consumed per loop iteration, and the entry point
supplies `size` of the tree, which bounds the number of iterations
(every node is popped exactly once).
-/

/-! ## Identifier (`src/identifier.rs`) -/

/-- `const DIVIDER: &'static str = ":"` (a one-character pattern). -/
def DIVIDER : Char := ':'

/-- `const DEFAULT_ID: &'static str = "unknown"`. -/
def DEFAULT_ID : List Char := "unknown".toList

/-- The default value of the `DEFAULT_NAMESPACE` const generic parameter. -/
def DEFAULT_NAMESPACE : List Char := "game".toList

/-- `struct Identifier { scope: String, id: String }`. -/
structure Identifier where
  scope : List Char
  id : List Char
deriving DecidableEq, Repr

/-- `value.starts_with(DIVIDER)` for the one-character pattern `":"`. -/
def startsWithDivider : List Char → Bool
  | [] => false
  | c :: _ => c = DIVIDER

/-- `value.replacen(DIVIDER, "", 1)`: remove the first occurrence of the
one-character pattern `":"`, if any. -/
def replacenDivider1 : List Char → List Char
  | [] => []
  | c :: rest => if c = DIVIDER then rest else c :: replacenDivider1 rest

/-- `cleaned.split(DIVIDER)` for the one-character pattern `":"`; like
Rust's `str::split`, the result is always non-empty and splitting the
empty string yields `[""]`. -/
def splitOnDivider : List Char → List (List Char)
  | [] => [[]]
  | c :: rest =>
    if c = DIVIDER then [] :: splitOnDivider rest
    else
      match splitOnDivider rest with
      | [] => [[c]]
      | p :: ps => (c :: p) :: ps

/-- `parts.join("_")` on string slices. -/
def joinUnderscore : List (List Char) → List Char
  | [] => []
  | [p] => p
  | p :: ps => p ++ '_' :: joinUnderscore ps

/-- The `cleaned` binding of `From<String> for Identifier`: the input with
one leading divider removed via `replacen`, when it starts with one. -/
def cleanedOf (value : List Char) : List Char :=
  if !(startsWithDivider value) then value else replacenDivider1 value

/-- `From<String> for Identifier<DEFAULT_NAMESPACE>` (`identifier.rs`
lines 22-44); `ns` is the `DEFAULT_NAMESPACE` const generic. -/
def identifierFrom (ns : List Char) (value : List Char) : Identifier :=
  let cleaned := cleanedOf value
  if cleaned.contains DIVIDER then
    let split := splitOnDivider cleaned
    let scope := split.headI
    let id := joinUnderscore split.tail
    { scope := scope, id := if !(id = []) then id else DEFAULT_ID }
  else
    { scope := ns, id := cleaned }

/-- `From<&str>` / `From<String>` at the default namespace `"game"`. -/
def identifierFromDefault (value : List Char) : Identifier :=
  identifierFrom DEFAULT_NAMESPACE value

/-- Whether a character is not the divider (Bool-valued, for
`takeWhile`/`dropWhile`). -/
def notDivider (c : Char) : Bool := !(c == DIVIDER)

/-- Replace a divider character by `'_'`. -/
def substDivider (c : Char) : Char := if c = DIVIDER then '_' else c

/-- Restatement of the identifier grammar in the specification's words:
strip one leading divider if present; if a divider remains, the text
before the first divider is the scope and the rest — further dividers
joined with `'_'` — is the id, an empty id being replaced by
`"unknown"`; if no divider remains, the scope is the default namespace
and the whole text is the id.  Used only to be compared with
`identifierFrom`, which is translated from the source. -/
def identifierSpec (ns : List Char) (value : List Char) : Identifier :=
  let cleaned := if startsWithDivider value then value.tail else value
  if cleaned.contains DIVIDER then
    let scope := cleaned.takeWhile notDivider
    let rawId := ((cleaned.dropWhile notDivider).tail).map substDivider
    { scope := scope, id := if rawId = [] then DEFAULT_ID else rawId }
  else
    { scope := ns, id := cleaned }

/-! ## Registry (`src/registry.rs`) -/

/-- `struct RegistryHandle { idx: usize }`. -/
structure RegistryHandle where
  idx : Nat
deriving DecidableEq, Repr

/-- `RegistryHandle::value`. -/
def RegistryHandle.value (h : RegistryHandle) : Nat := h.idx

/-- `enum RegistryInsertError`. -/
inductive RegistryInsertError where
  | EntryAlreadyExists
deriving DecidableEq, Repr

/-- `struct Registry<T> { keys: Vec<Identifier>, values: Vec<T> }`. -/
structure Registry (T : Type) where
  keys : List Identifier
  values : List T
deriving DecidableEq, Repr

/-- `Registry::new`. -/
def Registry.new (T : Type) : Registry T := ⟨[], []⟩

/-- `Registry::contains`: `self.keys.contains(&id)`. -/
def Registry.contains (r : Registry T) (id : Identifier) : Bool :=
  r.keys.contains id

/-- The enumerate-and-scan loop of `Registry::get_handle`. -/
def getHandleLoop (id : Identifier) : List Identifier → Nat → Option RegistryHandle
  | [], _ => none
  | key :: rest, idx =>
    if id = key then some ⟨idx⟩ else getHandleLoop id rest (idx + 1)

/-- `Registry::get_handle`: first index whose key equals `id`. -/
def Registry.get_handle (r : Registry T) (id : Identifier) : Option RegistryHandle :=
  getHandleLoop id r.keys 0

/-- `Registry::get`: `self.values.get(handle.idx)`. -/
def Registry.get (r : Registry T) (handle : RegistryHandle) : Option T :=
  r.values.get? handle.idx

/-- `Registry::get_direct`. -/
def Registry.get_direct (r : Registry T) (id : Identifier) : Option T :=
  match r.get_handle id with
  | none => none
  | some handle => r.get handle

/-- `Registry::insert` (`registry.rs` lines 44-52).  `&mut self` is
modelled by returning the updated registry next to the `Result`. -/
def Registry.insert (r : Registry T) (id : Identifier) (value : T) :
    Except RegistryInsertError Unit × Registry T :=
  if !(r.contains id) then
    (Except.ok (), { keys := r.keys ++ [id], values := r.values ++ [value] })
  else
    (Except.error RegistryInsertError.EntryAlreadyExists, r)

/-- `Registry::clear`. -/
def Registry.clear (_ : Registry T) : Registry T := ⟨[], []⟩

/-! ## BehaviourContext (`src/context.rs`)

The two registries hold function pointers in the source
(`fn(CallType) -> ReturnType` and `fn(ReturnType, CallType) -> ReturnType`);
their element types are abstracted as `E` and `D`, which the compiler
never inspects. -/

/-- `struct BehaviourContext { executors: Registry<..>, decorators: Registry<..> }`. -/
structure BehaviourContext (E D : Type) where
  executors : Registry E
  decorators : Registry D
deriving DecidableEq, Repr

/-- `BehaviourContext::new`. -/
def BehaviourContext.new (E D : Type) : BehaviourContext E D :=
  ⟨Registry.new E, Registry.new D⟩

/-- `BehaviourContext::register_executor`. -/
def BehaviourContext.register_executor (ctx : BehaviourContext E D)
    (id : Identifier) (handle : E) :
    Except RegistryInsertError Unit × BehaviourContext E D :=
  let res := ctx.executors.insert id handle
  (res.1, { ctx with executors := res.2 })

/-- `BehaviourContext::register_decorator`. -/
def BehaviourContext.register_decorator (ctx : BehaviourContext E D)
    (id : Identifier) (decorator : D) :
    Except RegistryInsertError Unit × BehaviourContext E D :=
  let res := ctx.decorators.insert id decorator
  (res.1, { ctx with decorators := res.2 })

/-- `BehaviourContext::get_executor_handle`. -/
def BehaviourContext.get_executor_handle (ctx : BehaviourContext E D)
    (id : Identifier) : Option RegistryHandle :=
  ctx.executors.get_handle id

/-- `BehaviourContext::get_decorator_handle`. -/
def BehaviourContext.get_decorator_handle (ctx : BehaviourContext E D)
    (id : Identifier) : Option RegistryHandle :=
  ctx.decorators.get_handle id

/-! ## The tree compiler (`src/behavior/tree.rs`) -/

/-- `type VecType = u32`: words are `Nat` values truncated modulo `U32_MOD`
exactly where the Rust code casts to `u32`. -/
def U32_MOD : Nat := 2 ^ 32

/-- `const NODE_SIZE: usize = (u64::BITS / VecType::BITS) as usize`, i.e. 2. -/
def NODE_SIZE : Nat := 64 / 32

/-- `const ID_MASK: u32 = 0xF000`. -/
def ID_MASK : Nat := 0xF000

/-- `!ID_MASK`, the bitwise complement of `ID_MASK` over `u32`. -/
def NOT_ID_MASK : Nat := 0xFFFFFFFF ^^^ ID_MASK

/-- `const SEQUENCE_ID: u8 = 1`. -/
def SEQUENCE_ID : Nat := 1
/-- `const FALLBACK_ID: u8 = 2`. -/
def FALLBACK_ID : Nat := 2
/-- `const PARALLEL_ID: u8 = 3`. -/
def PARALLEL_ID : Nat := 3
/-- `const DECORATOR_ID: u8 = 4`. -/
def DECORATOR_ID : Nat := 4
/-- `const EXECUTOR_ID: u8 = 5`. -/
def EXECUTOR_ID : Nat := 5

/-- `enum BehaviourNode` (`tree.rs` lines 18-34). -/
inductive BehaviourNode where
  | Root (child : BehaviourNode)
  | Sequence (children : List BehaviourNode)
  | Fallback (children : List BehaviourNode)
  | Parallel (children : List BehaviourNode)
  | Decorator (name : Identifier) (child : BehaviourNode)
  | Executor (id : Identifier)

/-- `enum TreeCompilationError` (`tree.rs` lines 172-182). -/
inductive TreeCompilationError where
  | NoNodes
  | InitialNonRootNode
  | RootNodeInTree
  | UnknownDecorator (id : Identifier)
  | UnknownExecutor (id : Identifier)
  | UnencodableRegistryHandle (id : Identifier) (registry_index : Nat)
  | TooManyChildNodes
  | NonExistentContext
deriving DecidableEq, Repr

/-- `struct BehaviourTree` (`tree.rs` lines 184-189): the compiled code
words, the retained shared context, and the node count. -/
structure BehaviourTree (E D : Type) where
  code : List Nat
  context : BehaviourContext E D
  node_count : Nat
deriving DecidableEq, Repr

mutual
/-- Number of constructors of a tree; an upper bound for the number of
iterations of the compile loop, used as its fuel. -/
def BehaviourNode.size : BehaviourNode → Nat
  | .Root c => c.size + 1
  | .Sequence cs => BehaviourNode.sizeList cs + 1
  | .Fallback cs => BehaviourNode.sizeList cs + 1
  | .Parallel cs => BehaviourNode.sizeList cs + 1
  | .Decorator _ c => c.size + 1
  | .Executor _ => 1
/-- Total `size` of a list of trees. -/
def BehaviourNode.sizeList : List BehaviourNode → Nat
  | [] => 0
  | c :: cs => c.size + BehaviourNode.sizeList cs
end

/-- The `while nodes.len() > 0` loop of `compile_inner` (`tree.rs`
lines 61-168), followed by the final `node_count > 0` check.

The Rust `Vec` work list pops from its end and `append`s children at
its end, so it is modelled as a list whose head is the top of the
stack; appending `children` to the `Vec` end makes `children.reverse`
the new top of the list.  (In the `Fallback` arm the source calls
`nodes.append(&mut children)` twice; `Vec::append` drains its
argument, so the second call appends an empty vector and has no
effect.)  One unit of fuel is consumed per iteration; with the fuel
supplied by `compile_inner` the `0, _ :: _` case is never reached. -/
def compileLoop (ctx : BehaviourContext E D) :
    Nat → List BehaviourNode → List Nat → Nat → Nat →
    Except TreeCompilationError (List Nat × Nat)
  | _, [], code, _, node_count =>
    if node_count > 0 then Except.ok (code, node_count)
    else Except.error TreeCompilationError.NoNodes
  | 0, _ :: _, _, _, _ => Except.error TreeCompilationError.NoNodes
  | fuel + 1, node :: rest, code, node_offset, node_count =>
    match node with
    | .Root _ => Except.error TreeCompilationError.RootNodeInTree
    | .Sequence children =>
      let child_count := children.length % U32_MOD
      if children.length > 0 then
        if ¬(child_count &&& NOT_ID_MASK = child_count) then
          Except.error TreeCompilationError.TooManyChildNodes
        else
          let node_offset := node_offset + NODE_SIZE
          let child_offset := (node_offset + rest.length * NODE_SIZE) % U32_MOD
          compileLoop ctx fuel (children.reverse ++ rest)
            (code ++ [(SEQUENCE_ID <<< 24) ||| child_count, child_offset])
            node_offset (node_count + 1)
      else compileLoop ctx fuel rest code node_offset node_count
    | .Fallback children =>
      let child_count := children.length % U32_MOD
      if children.length > 0 then
        if ¬(child_count &&& NOT_ID_MASK = child_count) then
          Except.error TreeCompilationError.TooManyChildNodes
        else
          let node_offset := node_offset + NODE_SIZE
          let child_offset := (node_offset + rest.length * NODE_SIZE) % U32_MOD
          compileLoop ctx fuel (children.reverse ++ rest)
            (code ++ [(FALLBACK_ID <<< 24) ||| child_count, child_offset])
            node_offset (node_count + 1)
      else compileLoop ctx fuel rest code node_offset node_count
    | .Parallel children =>
      let child_count := children.length % U32_MOD
      if children.length > 0 then
        if ¬(child_count &&& NOT_ID_MASK = child_count) then
          Except.error TreeCompilationError.TooManyChildNodes
        else
          let node_offset := node_offset + NODE_SIZE
          let child_offset := (node_offset + rest.length * NODE_SIZE) % U32_MOD
          compileLoop ctx fuel (children.reverse ++ rest)
            (code ++ [(PARALLEL_ID <<< 24) ||| child_count, child_offset])
            node_offset (node_count + 1)
      else compileLoop ctx fuel rest code node_offset node_count
    | .Decorator name child =>
      match ctx.get_decorator_handle name with
      | some handle =>
        let handle_value := handle.value
        let masked_handle := (handle_value % U32_MOD) &&& NOT_ID_MASK
        if ¬(masked_handle = handle_value) then
          Except.error (TreeCompilationError.UnencodableRegistryHandle name handle_value)
        else
          let node_offset := node_offset + NODE_SIZE
          let child_offset := (node_offset + rest.length * NODE_SIZE) % U32_MOD
          compileLoop ctx fuel (child :: rest)
            (code ++ [masked_handle ||| (DECORATOR_ID <<< 24), child_offset])
            node_offset (node_count + 1)
      | none => Except.error (TreeCompilationError.UnknownDecorator name)
    | .Executor id =>
      match ctx.get_executor_handle id with
      | some handle =>
        let handle_value := handle.value
        let masked_handle := (handle_value % U32_MOD) &&& NOT_ID_MASK
        if ¬(masked_handle = handle_value) then
          Except.error (TreeCompilationError.UnencodableRegistryHandle id handle_value)
        else
          let node_offset := node_offset + NODE_SIZE
          compileLoop ctx fuel rest
            (code ++ [masked_handle ||| (EXECUTOR_ID <<< 24), 0])
            node_offset (node_count + 1)
      | none => Except.error (TreeCompilationError.UnknownExecutor id)

/-- `BehaviourNode::compile_inner` (`tree.rs` lines 46-169).  The
`Weak<BehaviourContext>` argument is modelled by the result of
`upgrade()`: `none` when the owner has already released the context. -/
def BehaviourNode.compile_inner (node : BehaviourNode)
    (context : Option (BehaviourContext E D)) :
    Except TreeCompilationError (BehaviourTree E D) :=
  match context with
  | none => Except.error TreeCompilationError.NonExistentContext
  | some ctx =>
    match compileLoop ctx node.size [node] [] 0 0 with
    | Except.ok (code, node_count) =>
      Except.ok { code := code, context := ctx, node_count := node_count }
    | Except.error e => Except.error e

/-- `BehaviourNode::compile` (`tree.rs` lines 37-45). -/
def BehaviourNode.compile (node : BehaviourNode)
    (ctx : Option (BehaviourContext E D)) :
    Except TreeCompilationError (BehaviourTree E D) :=
  match node with
  | .Root child => child.compile_inner ctx
  | _ => Except.error TreeCompilationError.InitialNonRootNode

/-! ## Concrete fixtures (mirroring the unit tests of the crate) -/

deriving instance DecidableEq for Except

/-- `Identifier::from("exec")`. -/
def execId : Identifier := identifierFromDefault "exec".toList

/-- `Identifier::from("decorate")`. -/
def decorateId : Identifier := identifierFromDefault "decorate".toList

/-- A context with `"exec"` registered as executor handle 0 and
`"decorate"` as decorator handle 0, as in the crate's tests. -/
def ctx1 : BehaviourContext Unit Unit :=
  (((BehaviourContext.new Unit Unit).register_executor execId ()).2.register_decorator
    decorateId ()).2

/-- A family of pairwise distinct identifiers, all with scope `"b"`,
used to pad a registry. -/
def mkId (i : Nat) : Identifier := ⟨['b'], Nat.toDigits 10 i⟩

/-- A context whose executor registry holds 4097 entries with `"exec"`
last, so that `"exec"` resolves to registry index 4096. -/
def bigExecCtx : BehaviourContext Unit Unit :=
  ⟨⟨(List.range 4096).map mkId ++ [execId], List.replicate 4097 ()⟩, ⟨[], []⟩⟩

/-- A context whose decorator registry holds 4097 entries with
`"decorate"` last, so that `"decorate"` resolves to registry index
4096; `"exec"` is executor handle 0. -/
def bigDecCtx : BehaviourContext Unit Unit :=
  ⟨⟨[execId], [()]⟩, ⟨(List.range 4096).map mkId ++ [decorateId], List.replicate 4097 ()⟩⟩

/-! ## Lemmas about identifier parsing -/

theorem splitOnDivider_ne_nil (l : List Char) : splitOnDivider l ≠ [] := by
  cases l with
  | nil => simp [splitOnDivider]
  | cons c rest =>
    simp only [splitOnDivider]
    split
    · simp
    · split <;> simp

theorem splitOnDivider_of_mem :
    ∀ l : List Char, DIVIDER ∈ l →
      splitOnDivider l =
        l.takeWhile notDivider :: splitOnDivider ((l.dropWhile notDivider).tail) := by
  intro l
  induction l with
  | nil => intro h; simp at h
  | cons c rest ih =>
    intro _hmem
    by_cases hc : c = DIVIDER
    · subst hc
      simp [splitOnDivider, List.takeWhile_cons, List.dropWhile_cons, notDivider]
    · have hmem : DIVIDER ∈ rest := by
        rcases List.mem_cons.mp _hmem with h | h
        · exact absurd h.symm hc
        · exact h
      have hnd : notDivider c = true := by simp [notDivider, hc]
      rw [List.takeWhile_cons, List.dropWhile_cons]
      simp only [hnd, if_true]
      simp only [splitOnDivider, if_neg hc]
      rw [ih hmem]

theorem joinUnderscore_splitOnDivider :
    ∀ m : List Char, joinUnderscore (splitOnDivider m) = m.map substDivider := by
  intro m
  induction m with
  | nil => simp [splitOnDivider, joinUnderscore]
  | cons c rest ih =>
    by_cases hc : c = DIVIDER
    · subst hc
      simp only [splitOnDivider, if_pos rfl]
      cases hsp : splitOnDivider rest with
      | nil => exact absurd hsp (splitOnDivider_ne_nil rest)
      | cons p ps =>
        rw [hsp] at ih
        simp only [joinUnderscore, List.nil_append, List.map_cons]
        rw [ih]
        simp [substDivider]
    · simp only [splitOnDivider, if_neg hc]
      cases hsp : splitOnDivider rest with
      | nil => exact absurd hsp (splitOnDivider_ne_nil rest)
      | cons p ps =>
        rw [hsp] at ih
        cases ps with
        | nil =>
          simp only [joinUnderscore] at ih ⊢
          simp [ih, substDivider, hc]
        | cons q qs =>
          simp only [joinUnderscore, List.cons_append] at ih ⊢
          simp [← ih, substDivider, hc]

theorem replacenDivider1_of_starts (value : List Char)
    (h : startsWithDivider value = true) : replacenDivider1 value = value.tail := by
  cases value with
  | nil => simp [startsWithDivider] at h
  | cons c rest =>
    have hc : c = DIVIDER := by simpa [startsWithDivider] using h
    simp [replacenDivider1, hc]

theorem cleanedOf_eq (value : List Char) :
    cleanedOf value = if startsWithDivider value then value.tail else value := by
  by_cases h : startsWithDivider value = true
  · simp [cleanedOf, h, replacenDivider1_of_starts value h]
  · simp [cleanedOf, h]

theorem contains_divider_iff (m : List Char) :
    m.contains DIVIDER = true ↔ DIVIDER ∈ m := List.elem_iff

/-- The branch of identifier parsing below the `cleaned` binding, source
form versus specification form. -/
theorem identifier_core_eq (ns m : List Char) :
    (if m.contains DIVIDER then
      ({ scope := (splitOnDivider m).headI,
         id := if !(joinUnderscore (splitOnDivider m).tail = []) then
                 joinUnderscore (splitOnDivider m).tail else DEFAULT_ID } : Identifier)
     else { scope := ns, id := m }) =
    (if m.contains DIVIDER then
      ({ scope := m.takeWhile notDivider,
         id := if ((m.dropWhile notDivider).tail).map substDivider = [] then DEFAULT_ID
               else ((m.dropWhile notDivider).tail).map substDivider } : Identifier)
     else { scope := ns, id := m }) := by
  by_cases hm : DIVIDER ∈ m
  · have hc : m.contains DIVIDER = true := (contains_divider_iff m).mpr hm
    rw [splitOnDivider_of_mem m hm]
    simp only [hc, if_true, List.headI, List.tail_cons, joinUnderscore_splitOnDivider]
    by_cases hid : ((m.dropWhile notDivider).tail).map substDivider = []
    · simp [hid]
    · simp [hid]
  · have hc : ¬(m.contains DIVIDER = true) := fun h => hm ((contains_divider_iff m).mp h)
    simp [hc, hm]

/-- **C5** (confirmed).  For every input string, identifier parsing
follows the stated grammar: one leading divider is stripped if present;
if a divider remains, the text before the first divider is the scope
and the rest (further dividers joined with `'_'`) is the id, an empty
id being replaced by `"unknown"`; if no divider remains, the scope is
the default namespace and the whole text is the id.  In particular
`"scope:id"` gives `("scope","id")`, `"id"` and `":id"` give
`(default,"id")`, and `"scope:"` gives `("scope","unknown")`. -/
theorem identifierFrom_follows_grammar :
    (∀ ns value, identifierFrom ns value = identifierSpec ns value) ∧
    identifierFromDefault "scope:id".toList = ⟨"scope".toList, "id".toList⟩ ∧
    identifierFromDefault "id".toList = ⟨DEFAULT_NAMESPACE, "id".toList⟩ ∧
    identifierFromDefault ":id".toList = ⟨DEFAULT_NAMESPACE, "id".toList⟩ ∧
    identifierFromDefault "scope:".toList = ⟨"scope".toList, "unknown".toList⟩ := by
  refine ⟨?_, by decide, by decide, by decide, by decide⟩
  intro ns value
  have h := identifier_core_eq ns (cleanedOf value)
  simp only [identifierFrom]
  rw [h, identifierSpec, ← cleanedOf_eq]

/-- **C10** (confirmed).  Parsing `":"` yields the default namespace as
scope and the empty string as id; the `"unknown"` replacement applies
only when a divider remains after stripping the leading one, so an
empty id is reachable through parsing. -/
theorem identifierFrom_colon_empty_id :
    (∀ ns, identifierFrom ns [DIVIDER] = ⟨ns, []⟩) ∧
    (∀ ns value, (cleanedOf value).contains DIVIDER = false →
      identifierFrom ns value = ⟨ns, cleanedOf value⟩) := by
  constructor
  · intro ns
    simp [identifierFrom, cleanedOf, startsWithDivider, replacenDivider1, DIVIDER,
      List.contains]
  · intro ns value h
    have hm : DIVIDER ∉ cleanedOf value := fun hmem => by
      rw [(contains_divider_iff (cleanedOf value)).mpr hmem] at h
      exact Bool.true_eq_false.mp h
    simp [identifierFrom, hm]

/-- Witness for **C10**: the second conjunct applied at `":"`. -/
theorem identifierFrom_colon_empty_id_witness :
    identifierFrom DEFAULT_NAMESPACE [DIVIDER] = ⟨DEFAULT_NAMESPACE, cleanedOf [DIVIDER]⟩ :=
  identifierFrom_colon_empty_id.2 DEFAULT_NAMESPACE [DIVIDER] (by decide)

/-! ## Lemmas about the compile loop -/

/-- **C6** (confirmed).  A `Sequence`, `Fallback` or `Parallel` node
with zero children emits no instruction words and does not increment
the node count (the loop state is passed on unchanged); a work list
exhausted with zero nodes emitted fails with `NoNodes`, which carries
no partial artifact; in particular `Root` wrapping an empty control
node — or only empty control nodes — compiles to `NoNodes`. -/
theorem empty_control_nodes_pruned_and_NoNodes :
    (∀ (E D : Type) (ctx : BehaviourContext E D) fuel rest code off cnt,
      compileLoop ctx (fuel + 1) (.Sequence [] :: rest) code off cnt =
        compileLoop ctx fuel rest code off cnt ∧
      compileLoop ctx (fuel + 1) (.Fallback [] :: rest) code off cnt =
        compileLoop ctx fuel rest code off cnt ∧
      compileLoop ctx (fuel + 1) (.Parallel [] :: rest) code off cnt =
        compileLoop ctx fuel rest code off cnt) ∧
    (∀ (E D : Type) (ctx : BehaviourContext E D) fuel code off,
      compileLoop ctx fuel [] code off 0 = Except.error TreeCompilationError.NoNodes) ∧
    BehaviourNode.compile (.Root (.Sequence [])) (some ctx1) =
      Except.error TreeCompilationError.NoNodes ∧
    BehaviourNode.compile (.Root (.Fallback [])) (some ctx1) =
      Except.error TreeCompilationError.NoNodes ∧
    BehaviourNode.compile (.Root (.Parallel [])) (some ctx1) =
      Except.error TreeCompilationError.NoNodes := by
  refine ⟨?_, ?_, by decide, by decide, by decide⟩
  · intro E D ctx fuel rest code off cnt
    refine ⟨?_, ?_, ?_⟩ <;> simp [compileLoop]
  · intro E D ctx fuel code off
    cases fuel <;> simp [compileLoop]

/-- The loop of `compile_inner` never produces `InitialNonRootNode`:
that error is only produced by the `compile` entry point. -/
theorem compileLoop_ne_initialNonRoot (E D : Type) (ctx : BehaviourContext E D) :
    ∀ fuel stack code off cnt,
      compileLoop ctx fuel stack code off cnt ≠
        Except.error TreeCompilationError.InitialNonRootNode := by
  intro fuel
  induction fuel with
  | zero =>
    intro stack code off cnt
    cases stack with
    | nil => simp only [compileLoop]; split <;> simp
    | cons n r => simp [compileLoop]
  | succ fuel ih =>
    intro stack code off cnt
    cases stack with
    | nil => simp only [compileLoop]; split <;> simp
    | cons node rest =>
      cases node with
      | Root c => simp [compileLoop]
      | Sequence children =>
        simp only [compileLoop]
        split
        · split
          · simp
          · exact ih _ _ _ _
        · exact ih _ _ _ _
      | Fallback children =>
        simp only [compileLoop]
        split
        · split
          · simp
          · exact ih _ _ _ _
        · exact ih _ _ _ _
      | Parallel children =>
        simp only [compileLoop]
        split
        · split
          · simp
          · exact ih _ _ _ _
        · exact ih _ _ _ _
      | Decorator name child =>
        simp only [compileLoop]
        split
        · split
          · simp
          · exact ih _ _ _ _
        · simp
      | Executor id =>
        simp only [compileLoop]
        split
        · split
          · simp
          · exact ih _ _ _ _
        · simp

/-- **C7** (confirmed).  Compiling any node whose outermost variant is
not `Root` fails with `InitialNonRootNode`, regardless of its content
and of the context; compiling a `Root`-topped tree never fails with
`InitialNonRootNode`. -/
theorem compile_initialNonRoot_characterisation :
    (∀ (E D : Type) (t : BehaviourNode) (ctx : Option (BehaviourContext E D)),
      (∀ c, t ≠ .Root c) →
      t.compile ctx = Except.error TreeCompilationError.InitialNonRootNode) ∧
    (∀ (E D : Type) (c : BehaviourNode) (ctx : Option (BehaviourContext E D)),
      (BehaviourNode.Root c).compile ctx ≠
        Except.error TreeCompilationError.InitialNonRootNode) := by
  constructor
  · intro E D t ctx h
    cases t with
    | Root c => exact absurd rfl (h c)
    | Sequence cs => rfl
    | Fallback cs => rfl
    | Parallel cs => rfl
    | Decorator n c => rfl
    | Executor i => rfl
  · intro E D c ctx
    simp only [BehaviourNode.compile, BehaviourNode.compile_inner]
    cases ctx with
    | none => simp
    | some ctx =>
      simp only []
      cases h : compileLoop ctx c.size [c] [] 0 0 with
      | ok val => simp
      | error e =>
        simp only []
        intro he
        rw [Except.error.injEq] at he
        subst he
        exact compileLoop_ne_initialNonRoot E D ctx _ _ _ _ _ h

/-- Witness for **C7**: a bare `Executor` fails with
`InitialNonRootNode` even against a live context. -/
theorem compile_initialNonRoot_witness :
    BehaviourNode.compile (.Executor execId) (some ctx1) =
      Except.error TreeCompilationError.InitialNonRootNode :=
  compile_initialNonRoot_characterisation.1 Unit Unit (.Executor execId) (some ctx1)
    (fun c h => by cases h)

/-- Loop invariant: every emitted node appends exactly `NODE_SIZE = 2`
words and increments the node count by one, and a successful exit
requires a positive node count. -/
theorem compileLoop_code_length (E D : Type) (ctx : BehaviourContext E D) :
    ∀ fuel stack code off cnt c n,
      code.length = 2 * cnt →
      compileLoop ctx fuel stack code off cnt = Except.ok (c, n) →
      c.length = 2 * n ∧ 1 ≤ n := by
  intro fuel
  induction fuel with
  | zero =>
    intro stack code off cnt c n hlen h
    cases stack with
    | nil =>
      simp only [compileLoop] at h
      split at h
      · rename_i hcnt
        rw [Except.ok.injEq] at h
        cases h
        exact ⟨hlen, hcnt⟩
      · exact absurd h (by simp)
    | cons node rest => simp [compileLoop] at h
  | succ fuel ih =>
    intro stack code off cnt c n hlen h
    cases stack with
    | nil =>
      simp only [compileLoop] at h
      split at h
      · rename_i hcnt
        rw [Except.ok.injEq] at h
        cases h
        exact ⟨hlen, hcnt⟩
      · exact absurd h (by simp)
    | cons node rest =>
      cases node with
      | Root c' => simp [compileLoop] at h
      | Sequence children =>
        simp only [compileLoop] at h
        split at h
        · split at h
          · exact absurd h (by simp)
          · exact ih _ _ _ _ _ _ (by simp [hlen, Nat.mul_add]) h
        · exact ih _ _ _ _ _ _ hlen h
      | Fallback children =>
        simp only [compileLoop] at h
        split at h
        · split at h
          · exact absurd h (by simp)
          · exact ih _ _ _ _ _ _ (by simp [hlen, Nat.mul_add]) h
        · exact ih _ _ _ _ _ _ hlen h
      | Parallel children =>
        simp only [compileLoop] at h
        split at h
        · split at h
          · exact absurd h (by simp)
          · exact ih _ _ _ _ _ _ (by simp [hlen, Nat.mul_add]) h
        · exact ih _ _ _ _ _ _ hlen h
      | Decorator name child =>
        simp only [compileLoop] at h
        split at h
        · split at h
          · exact absurd h (by simp)
          · exact ih _ _ _ _ _ _ (by simp [hlen, Nat.mul_add]) h
        · exact absurd h (by simp)
      | Executor id =>
        simp only [compileLoop] at h
        split at h
        · split at h
          · exact absurd h (by simp)
          · exact ih _ _ _ _ _ _ (by simp [hlen, Nat.mul_add]) h
        · exact absurd h (by simp)

/-- **C9** (confirmed).  Every successful compilation returns a
`BehaviourTree` with `code.length = 2 * node_count` and
`node_count ≥ 1`: each emitted node occupies exactly one two-word
instruction pair. -/
theorem compile_code_length_invariant :
    ∀ (E D : Type) (t : BehaviourNode) (ctx : Option (BehaviourContext E D))
      (tree : BehaviourTree E D),
      t.compile ctx = Except.ok tree →
      tree.code.length = NODE_SIZE * tree.node_count ∧ 1 ≤ tree.node_count := by
  intro E D t ctx tree h
  cases t with
  | Root c =>
    simp only [BehaviourNode.compile, BehaviourNode.compile_inner] at h
    cases ctx with
    | none => simp at h
    | some ctx =>
      simp only [] at h
      cases hl : compileLoop ctx c.size [c] [] 0 0 with
      | error e => rw [hl] at h; simp at h
      | ok val =>
        rw [hl] at h
        obtain ⟨code, node_count⟩ := val
        simp only [Except.ok.injEq] at h
        subst h
        have := compileLoop_code_length E D ctx c.size [c] [] 0 0 code node_count (by simp) hl
        simpa [NODE_SIZE] using this
  | Sequence cs => simp [BehaviourNode.compile] at h
  | Fallback cs => simp [BehaviourNode.compile] at h
  | Parallel cs => simp [BehaviourNode.compile] at h
  | Decorator n c => simp [BehaviourNode.compile] at h
  | Executor i => simp [BehaviourNode.compile] at h

/-- Witness for **C9**: the invariant at a concrete successful
compilation. -/
theorem compile_code_length_invariant_witness :
    ({ code := [5 <<< 24, 0], context := ctx1, node_count := 1 } :
        BehaviourTree Unit Unit).code.length =
      NODE_SIZE * (1 : Nat) ∧ (1 : Nat) ≤ 1 := by
  have h := compile_code_length_invariant Unit Unit (.Root (.Executor execId)) (some ctx1)
    { code := [5 <<< 24, 0], context := ctx1, node_count := 1 } (by decide)
  exact h

/-! ## The offset and mask defects -/

/-- **C1** (code_bug).  Evaluating the compiler on
`Root(Parallel[Executor "exec", Sequence[Executor "exec"]])`: the inner
`Sequence`'s instruction pair occupies words 2-3 and its only child's
pair begins at word 4, yet the emitted offset word (index 3) is 6 —
the offset formula adds the size of the still-pending work list even
though the LIFO work list processes this node's children first, so the
second word of a control pair does not point at its children. -/
theorem compile_offset_word_eval :
    BehaviourNode.compile
        (.Root (.Parallel [.Executor execId, .Sequence [.Executor execId]]))
        (some ctx1) =
      Except.ok
        { code := [(PARALLEL_ID <<< 24) ||| 2, 2, (SEQUENCE_ID <<< 24) ||| 1, 6,
                   EXECUTOR_ID <<< 24, 0, EXECUTOR_ID <<< 24, 0],
          context := ctx1, node_count := 4 } := by
  decide

/-- **C2** (code_bug).  A `Sequence` with 4096 children fails with
`TooManyChildNodes`, although 4096 fits comfortably in the 24 operand
bits below the high-byte type tag: the fit check masks with
`!ID_MASK = !0xF000`, which is misaligned with the byte the tag
occupies, so it rejects any child count with a bit in `0xF000`. -/
theorem compile_child_count_mask_eval :
    BehaviourNode.compile
        (.Root (.Sequence (List.replicate 4096 (.Executor execId)))) (some ctx1) =
      Except.error TreeCompilationError.TooManyChildNodes := by
  simp only [BehaviourNode.compile, BehaviourNode.compile_inner, BehaviourNode.size]
  rw [compileLoop]
  simp only [List.length_replicate]
  norm_num [U32_MOD, NOT_ID_MASK, ID_MASK]
  rw [if_neg (by decide)]

theorem getHandleLoop_append (id : Identifier) :
    ∀ (l : List Identifier) (n : Nat), (∀ k ∈ l, ¬(id = k)) →
      getHandleLoop id (l ++ [id]) n = some ⟨n + l.length⟩ := by
  intro l
  induction l with
  | nil => intro n _; simp [getHandleLoop]
  | cons k rest ih =>
    intro n h
    have hk : ¬(id = k) := h k (List.mem_cons_self k rest)
    simp only [List.cons_append, getHandleLoop, if_neg hk, List.append_eq]
    rw [ih (n + 1) (fun k' hk' => h k' (List.mem_cons_of_mem k hk'))]
    simp only [List.length_cons, Option.some.injEq, RegistryHandle.mk.injEq]
    omega

theorem mkId_scope (i : Nat) : (mkId i).scope = ['b'] := rfl

theorem execId_not_mkId : ∀ k ∈ (List.range 4096).map mkId, ¬(execId = k) := by
  intro k hk heq
  rcases List.mem_map.mp hk with ⟨i, _, rfl⟩
  have := congrArg Identifier.scope heq
  rw [mkId_scope] at this
  exact absurd (congrArg List.length this) (by decide)

theorem decorateId_not_mkId : ∀ k ∈ (List.range 4096).map mkId, ¬(decorateId = k) := by
  intro k hk heq
  rcases List.mem_map.mp hk with ⟨i, _, rfl⟩
  have := congrArg Identifier.scope heq
  rw [mkId_scope] at this
  exact absurd (congrArg List.length this) (by decide)

theorem bigExec_handle : bigExecCtx.get_executor_handle execId = some ⟨4096⟩ := by
  show getHandleLoop execId ((List.range 4096).map mkId ++ [execId]) 0 = some ⟨4096⟩
  rw [getHandleLoop_append execId _ 0 execId_not_mkId]
  simp

theorem bigDec_handle : bigDecCtx.get_decorator_handle decorateId = some ⟨4096⟩ := by
  show getHandleLoop decorateId ((List.range 4096).map mkId ++ [decorateId]) 0 = some ⟨4096⟩
  rw [getHandleLoop_append decorateId _ 0 decorateId_not_mkId]
  simp

/-- **C3** (code_bug).  A `Decorator` whose name resolves to registry
index 4096 fails with `UnencodableRegistryHandle`, although masking off
the bits of the high tag byte (bits 24-31) would leave 4096 unchanged:
the encodability check masks with `!ID_MASK = !0xF000`, which is
misaligned with the byte the tag occupies, so it rejects any handle
with a bit in `0xF000`. -/
theorem compile_handle_mask_eval :
    BehaviourNode.compile (.Root (.Decorator decorateId (.Executor execId)))
        (some bigDecCtx) =
      Except.error (TreeCompilationError.UnencodableRegistryHandle decorateId 4096) := by
  simp only [BehaviourNode.compile, BehaviourNode.compile_inner, BehaviourNode.size]
  rw [compileLoop]
  simp only [bigDec_handle, RegistryHandle.value]
  norm_num [U32_MOD, NOT_ID_MASK, ID_MASK]
  rw [if_neg (by decide)]

/-- Counterexample for **C4**: a context in which `"exec"` is
registered as an executor — at registry index 4096 — yet compiling
`Root(Sequence[Executor "exec"])` fails with
`UnencodableRegistryHandle` instead of yielding `node_count = 2`. -/
theorem compile_single_child_counterexample :
    bigExecCtx.executors.contains execId = true ∧
    BehaviourNode.compile (.Root (.Sequence [.Executor execId])) (some bigExecCtx) =
      Except.error (TreeCompilationError.UnencodableRegistryHandle execId 4096) := by
  constructor
  · show (((List.range 4096).map mkId ++ [execId]).contains execId) = true
    exact (List.elem_iff).mpr (List.mem_append_right _ (by simp))
  · simp only [BehaviourNode.compile, BehaviourNode.compile_inner, BehaviourNode.size]
    rw [compileLoop]
    rw [if_pos (by decide), if_neg (by decide)]
    simp only [List.reverse_cons, List.reverse_nil, List.nil_append, List.append_nil]
    rw [show BehaviourNode.sizeList [BehaviourNode.Executor execId] = 0 + 1 from by decide]
    rw [compileLoop]
    simp only [bigExec_handle, RegistryHandle.value]
    norm_num [U32_MOD, NOT_ID_MASK, ID_MASK]
    rw [if_neg (by decide)]

/-- **C4** (corrected).  For every context in which `"exec"` resolves
to an executor handle whose value survives the operand mask (`h` cast
to `u32` and masked with `!ID_MASK` is unchanged), compiling `Root`
wrapping a `Sequence`, `Fallback` or `Parallel` whose children are the
single node `Executor "exec"` yields in all three cases
`node_count = 2` and a 4-word stream whose first word has count field
1, whose second word is 2, and the three streams are identical except
for the tag byte of the first word. -/
theorem compile_single_child_controls (E D : Type) (ctx : BehaviourContext E D) (h : Nat)
    (hh : ctx.get_executor_handle execId = some ⟨h⟩)
    (hm : (h % U32_MOD) &&& NOT_ID_MASK = h) :
    BehaviourNode.compile (.Root (.Sequence [.Executor execId])) (some ctx) =
      Except.ok { code := [(SEQUENCE_ID <<< 24) ||| 1, 2, h ||| (EXECUTOR_ID <<< 24), 0],
                  context := ctx, node_count := 2 } ∧
    BehaviourNode.compile (.Root (.Fallback [.Executor execId])) (some ctx) =
      Except.ok { code := [(FALLBACK_ID <<< 24) ||| 1, 2, h ||| (EXECUTOR_ID <<< 24), 0],
                  context := ctx, node_count := 2 } ∧
    BehaviourNode.compile (.Root (.Parallel [.Executor execId])) (some ctx) =
      Except.ok { code := [(PARALLEL_ID <<< 24) ||| 1, 2, h ||| (EXECUTOR_ID <<< 24), 0],
                  context := ctx, node_count := 2 } := by
  have hm' : h % 4294967296 &&& NOT_ID_MASK = h := by simpa [U32_MOD] using hm
  refine ⟨?_, ?_, ?_⟩
  · simp only [BehaviourNode.compile, BehaviourNode.compile_inner, BehaviourNode.size]
    rw [compileLoop]
    rw [if_pos (by decide), if_neg (by decide)]
    simp only [List.reverse_cons, List.reverse_nil, List.nil_append, List.append_nil]
    rw [show BehaviourNode.sizeList [BehaviourNode.Executor execId] = 0 + 1 from by decide]
    rw [compileLoop]
    simp only [hh, RegistryHandle.value]
    rw [if_neg (not_not_intro hm)]
    rw [compileLoop]
    norm_num [U32_MOD, NODE_SIZE, SEQUENCE_ID, EXECUTOR_ID]
    rw [hm']
  · simp only [BehaviourNode.compile, BehaviourNode.compile_inner, BehaviourNode.size]
    rw [compileLoop]
    rw [if_pos (by decide), if_neg (by decide)]
    simp only [List.reverse_cons, List.reverse_nil, List.nil_append, List.append_nil]
    rw [show BehaviourNode.sizeList [BehaviourNode.Executor execId] = 0 + 1 from by decide]
    rw [compileLoop]
    simp only [hh, RegistryHandle.value]
    rw [if_neg (not_not_intro hm)]
    rw [compileLoop]
    norm_num [U32_MOD, NODE_SIZE, FALLBACK_ID, EXECUTOR_ID]
    rw [hm']
  · simp only [BehaviourNode.compile, BehaviourNode.compile_inner, BehaviourNode.size]
    rw [compileLoop]
    rw [if_pos (by decide), if_neg (by decide)]
    simp only [List.reverse_cons, List.reverse_nil, List.nil_append, List.append_nil]
    rw [show BehaviourNode.sizeList [BehaviourNode.Executor execId] = 0 + 1 from by decide]
    rw [compileLoop]
    simp only [hh, RegistryHandle.value]
    rw [if_neg (not_not_intro hm)]
    rw [compileLoop]
    norm_num [U32_MOD, NODE_SIZE, PARALLEL_ID, EXECUTOR_ID]
    rw [hm']

/-- Witness for **C4**: the amended statement at the concrete context
`ctx1`, where `"exec"` is executor handle 0. -/
theorem compile_single_child_controls_witness :
    BehaviourNode.compile (.Root (.Sequence [.Executor execId])) (some ctx1) =
      Except.ok { code := [(SEQUENCE_ID <<< 24) ||| 1, 2, 0 ||| (EXECUTOR_ID <<< 24), 0],
                  context := ctx1, node_count := 2 } :=
  (compile_single_child_controls Unit Unit ctx1 0 (by decide) (by decide)).1

/-! ## Registry insertion -/

/-- **C8** (confirmed).  `insert` fails with `EntryAlreadyExists`
exactly when the identifier is already a key, leaving keys and values
unchanged in that case; otherwise it appends the identifier and the
value in lock-step at the end of both sequences and succeeds, so keys
stay pairwise distinct and the two sequences stay equal in length. -/
theorem registry_insert_spec (T : Type) (r : Registry T) (id : Identifier) (v : T) :
    ((r.insert id v).1 = Except.error RegistryInsertError.EntryAlreadyExists ↔
      id ∈ r.keys) ∧
    (id ∈ r.keys → (r.insert id v).2 = r) ∧
    (id ∉ r.keys →
      (r.insert id v).1 = Except.ok () ∧
      (r.insert id v).2.keys = r.keys ++ [id] ∧
      (r.insert id v).2.values = r.values ++ [v]) ∧
    (r.keys.Nodup → (r.insert id v).2.keys.Nodup) ∧
    (r.keys.length = r.values.length →
      (r.insert id v).2.keys.length = (r.insert id v).2.values.length) := by
  by_cases hmem : id ∈ r.keys
  · have hc : r.contains id = true := List.elem_iff.mpr hmem
    refine ⟨?_, ?_, ?_, ?_, ?_⟩
    · simp [Registry.insert, hc, hmem]
    · intro _; simp [Registry.insert, hc]
    · intro habs; exact absurd hmem habs
    · intro hnd; simpa [Registry.insert, hc] using hnd
    · intro hlen; simpa [Registry.insert, hc] using hlen
  · have hc : r.contains id = false := by
      by_contra hne
      exact hmem (List.elem_iff.mp (Bool.not_eq_false _ ▸ hne))
    refine ⟨?_, ?_, ?_, ?_, ?_⟩
    · simp [Registry.insert, hc, hmem]
    · intro habs; exact absurd habs hmem
    · intro _; simp [Registry.insert, hc]
    · intro hnd
      simp only [Registry.insert, hc, Bool.not_false, if_pos]
      exact List.Nodup.append hnd (List.nodup_singleton id)
        (fun a ha hb => hmem (by rwa [List.mem_singleton.mp hb] at ha))
    · intro hlen
      simp [Registry.insert, hc, hlen]

/-- Witness for **C8**: inserting into an empty registry appends the
key and the value and succeeds. -/
theorem registry_insert_spec_witness :
    ((Registry.new Nat).insert execId 3).1 = Except.ok () ∧
    ((Registry.new Nat).insert execId 3).2.keys = [execId] ∧
    ((Registry.new Nat).insert execId 3).2.values = [3] := by
  have h := (registry_insert_spec Nat (Registry.new Nat) execId 3).2.2.1
    (by simp [Registry.new])
  simpa [Registry.new] using h

/-! ## Adequacy of the fuel: the loop never exhausts it -/

theorem BehaviourNode.size_pos (n : BehaviourNode) : 1 ≤ n.size := by
  cases n <;> simp [BehaviourNode.size]

theorem BehaviourNode.sizeList_append :
    ∀ l₁ l₂ : List BehaviourNode,
      BehaviourNode.sizeList (l₁ ++ l₂) =
        BehaviourNode.sizeList l₁ + BehaviourNode.sizeList l₂ := by
  intro l₁ l₂
  induction l₁ with
  | nil => simp [BehaviourNode.sizeList]
  | cons n r ih => simp [BehaviourNode.sizeList, ih]; omega

theorem BehaviourNode.sizeList_reverse :
    ∀ l : List BehaviourNode,
      BehaviourNode.sizeList l.reverse = BehaviourNode.sizeList l := by
  intro l
  induction l with
  | nil => simp
  | cons n r ih =>
    rw [List.reverse_cons, BehaviourNode.sizeList_append]
    simp [BehaviourNode.sizeList, ih]
    omega

/-- The result of the loop does not depend on the fuel as soon as the
fuel covers the total `size` of the work list — each iteration pops a
node of size at least one and pushes only its proper children.  With
`compile_inner`'s fuel `node.size` the out-of-fuel branch is therefore
never taken, so the fuel-based model computes exactly what the
unbounded `while` loop of the source computes. -/
theorem compileLoop_fuel_irrelevant (E D : Type) (ctx : BehaviourContext E D) :
    ∀ fuel extra stack code off cnt,
      BehaviourNode.sizeList stack ≤ fuel →
      compileLoop ctx (fuel + extra) stack code off cnt =
        compileLoop ctx fuel stack code off cnt := by
  intro fuel
  induction fuel with
  | zero =>
    intro extra stack code off cnt h
    cases stack with
    | nil => simp only [compileLoop]
    | cons n r =>
      exfalso
      have h1 := BehaviourNode.size_pos n
      simp only [BehaviourNode.sizeList] at h
      omega
  | succ fuel ih =>
    intro extra stack code off cnt h
    cases stack with
    | nil => simp only [compileLoop]
    | cons node rest =>
      rw [show fuel + 1 + extra = (fuel + extra) + 1 from by omega]
      have hrest : BehaviourNode.sizeList rest ≤ fuel := by
        have h1 := BehaviourNode.size_pos node
        simp only [BehaviourNode.sizeList] at h
        omega
      cases node with
      | Root c => simp only [compileLoop]
      | Sequence children =>
        have hh : BehaviourNode.sizeList (BehaviourNode.Sequence children :: rest) ≤
            fuel + 1 := h
        simp only [BehaviourNode.sizeList, BehaviourNode.size] at hh
        simp only [compileLoop]
        split
        · split
          · rfl
          · apply ih
            rw [BehaviourNode.sizeList_append, BehaviourNode.sizeList_reverse]
            omega
        · exact ih _ _ _ _ _ hrest
      | Fallback children =>
        have hh : BehaviourNode.sizeList (BehaviourNode.Fallback children :: rest) ≤
            fuel + 1 := h
        simp only [BehaviourNode.sizeList, BehaviourNode.size] at hh
        simp only [compileLoop]
        split
        · split
          · rfl
          · apply ih
            rw [BehaviourNode.sizeList_append, BehaviourNode.sizeList_reverse]
            omega
        · exact ih _ _ _ _ _ hrest
      | Parallel children =>
        have hh : BehaviourNode.sizeList (BehaviourNode.Parallel children :: rest) ≤
            fuel + 1 := h
        simp only [BehaviourNode.sizeList, BehaviourNode.size] at hh
        simp only [compileLoop]
        split
        · split
          · rfl
          · apply ih
            rw [BehaviourNode.sizeList_append, BehaviourNode.sizeList_reverse]
            omega
        · exact ih _ _ _ _ _ hrest
      | Decorator name child =>
        have hh : BehaviourNode.sizeList (BehaviourNode.Decorator name child :: rest) ≤
            fuel + 1 := h
        simp only [BehaviourNode.sizeList, BehaviourNode.size] at hh
        simp only [compileLoop]
        split
        · split
          · rfl
          · apply ih
            simp only [BehaviourNode.sizeList]
            omega
        · rfl
      | Executor id =>
        simp only [compileLoop]
        split
        · split
          · rfl
          · exact ih _ _ _ _ _ hrest
        · rfl
